import Mathlib

/-!
Shallow embedding of `src/podcast-transcript-needAPIkey.py`: a four-stage
pipeline (Chunker / Chunk Processor / Combiner / Packager) over a filesystem
of chunk files.  Python primitives (slicing, `range`, `str.strip`, `sorted`,
`str.split`, `str.endswith`) are modelled faithfully; the token codec and the
remote editing service are parameters, as they are external collaborators.
-/

namespace PodcastTranscript

/-- Python ASCII whitespace, as stripped by `str.strip()`. -/
def isPySpace (c : Char) : Bool :=
  c == ' ' || c == '\t' || c == '\n' || c == '\x0d' || c == '\x0b' || c == '\x0c'

/-- `str.strip()` on a character list: drop whitespace from both ends. -/
def pyStripL (l : List Char) : List Char :=
  ((l.dropWhile isPySpace).reverse.dropWhile isPySpace).reverse

/-- Python `s.strip()`. -/
def pyStrip (s : String) : String := ⟨pyStripL s.data⟩

/-- Python string comparison `a <= b`: lexicographic on code points. -/
def pyLeL : List Char → List Char → Bool
  | [], _ => true
  | _ :: _, [] => false
  | a :: as_, b :: bs =>
    if a.toNat < b.toNat then true
    else if b.toNat < a.toNat then false
    else pyLeL as_ bs

/-- The `<=` order Python's `sorted` uses on strings, as a `Prop`. -/
def pyStrLe (a b : String) : Prop := pyLeL a.data b.data = true

instance : DecidableRel pyStrLe := fun a b => by
  unfold pyStrLe; infer_instance

/-- Python `sorted(l)` for lists of strings (stable, ascending). -/
def pySorted (l : List String) : List String := l.insertionSort pyStrLe

/-- Python `s.endswith(suffix)`. -/
def endswith (suffix s : String) : Bool := suffix.data.isSuffixOf s.data

/-- If `sep` is a prefix of `l`, return the remainder of `l` after it. -/
def dropSep : List Char → List Char → Option (List Char)
  | [], l => some l
  | _ :: _, [] => none
  | s :: ss, c :: cs => if s == c then dropSep ss cs else none

/-- Python `str.split(sep)` on character lists (nonempty `sep`): split at each
leftmost non-overlapping occurrence of `sep`.  The fuel argument makes the
recursion structural; `fuel = l.length` suffices since every step consumes at
least one character. -/
def pySplitGo (sep : List Char) : Nat → List Char → List (List Char)
  | _, [] => [[]]
  | 0, l => [l]
  | fuel + 1, c :: cs =>
    match dropSep sep (c :: cs) with
    | some rest => [] :: pySplitGo sep fuel rest
    | none =>
      match pySplitGo sep fuel cs with
      | [] => [[c]]
      | seg :: segs => (c :: seg) :: segs

/-- Python `s.split(sep)` for a nonempty separator. -/
def pySplit (sep s : String) : List String :=
  (pySplitGo sep.data s.data.length s.data).map (fun l => ⟨l⟩)

/-- Normalise a Python slice index to an absolute position in `[0, len]`. -/
def pyIdx (len : Nat) (i : Int) : Nat :=
  if i < 0 then ((len : Int) + i).toNat else min i.toNat len

/-- Python slice `l[a:b]` (step 1), with negative-index semantics. -/
def pySlice {α : Type} (l : List α) (a b : Int) : List α :=
  (l.drop (pyIdx l.length a)).take (pyIdx l.length b - pyIdx l.length a)

/-- Length of Python `range(start, stop, step)` for `step ≠ 0`. -/
def pyRangeLen (start stop step : Int) : Nat :=
  if 0 < step then ((stop - start).toNat + (step.toNat - 1)) / step.toNat
  else if step < 0 then ((start - stop).toNat + ((-step).toNat - 1)) / (-step).toNat
  else 0

/-- Python `range(start, stop, step)` for `step ≠ 0`, as a list of `Int`. -/
def pyRange (start stop step : Int) : List Int :=
  (List.range (pyRangeLen start stop step)).map (fun k : Nat => start + (k : Int) * step)

/-- A flat filesystem: a set of directories and a directory of files
(association list path ↦ content, in creation order, as `os.listdir` sees). -/
structure FS where
  dirs : List String
  files : List (String × String)
deriving DecidableEq

/-- `os.listdir` on the chunks directory: the file names. -/
def listdir (fs : FS) : List String := fs.files.map Prod.fst

/-- Read a file's content, if present. -/
def getFile (fs : FS) (p : String) : Option String :=
  (fs.files.find? (fun kv => kv.fst == p)).map Prod.snd

/-- Write a file: overwrite in place if the name exists, else create it. -/
def setFile (fs : FS) (p c : String) : FS :=
  if fs.files.any (fun kv => kv.fst == p) then
    { fs with files := fs.files.map (fun kv => if kv.fst == p then (p, c) else kv) }
  else
    { fs with files := fs.files ++ [(p, c)] }

/-- `os.makedirs(d, exist_ok)`: fails only when `d` exists and not `exist_ok`. -/
def makedirs (fs : FS) (d : String) (exist_ok : Bool) : Except String FS :=
  if fs.dirs.contains d then
    (if exist_ok then .ok fs else .error "FileExistsError")
  else .ok { fs with dirs := fs.dirs ++ [d] }

/-- The chunk list built by `split_text`'s loop:
`for i in range(0, len(tokens), chunk_size - overlap):
   chunks.append(tokens[max(0, i - overlap):i + chunk_size])`. -/
def chunksOf (tokens : List Nat) (chunk_size overlap : Int) : List (List Nat) :=
  (pyRange 0 tokens.length (chunk_size - overlap)).map
    (fun i => pySlice tokens (max 0 (i - overlap)) (i + chunk_size))

/-- `split_text`'s chunk computation, with Python's `range` error on a zero
step (`chunk_size = overlap` raises `ValueError` before any file is touched). -/
def splitChunks (tokens : List Nat) (chunk_size overlap : Int) :
    Except String (List (List Nat)) :=
  if chunk_size - overlap = 0 then .error "ValueError: range() arg 3 must not be zero"
  else .ok (chunksOf tokens chunk_size overlap)

/-- Number of chunks the chunker's loop produces (when the step is nonzero). -/
def numChunks (total : Nat) (chunk_size overlap : Int) : Nat :=
  pyRangeLen 0 total (chunk_size - overlap)

/-- The chunk file name `f'chunk_{i+1}.txt'` (1-indexed `i` here). -/
def chunkName (i : Nat) : String := "chunk_" ++ toString i ++ ".txt"

/-- The set of token positions chunk `j` (0-indexed) covers: slice the
identity token sequence `0, 1, …, n-1` exactly as `split_text` slices. -/
def chunkRange (n : Nat) (chunk_size overlap : Int) (j : Nat) : Finset Nat :=
  ((chunksOf (List.range n) chunk_size overlap).getD j []).toFinset

/-- Lower end of chunk `j`'s token window: `max(0, j*stride - overlap)`. -/
def winLo (chunk_size overlap : Int) (j : Nat) : Nat :=
  (max 0 ((j : Int) * (chunk_size - overlap) - overlap)).toNat

/-- Upper end (exclusive) of chunk `j`'s token window, clipped to the
sequence length: `min n (j*stride + chunk_size)`. -/
def winHi (n : Nat) (chunk_size overlap : Int) (j : Nat) : Nat :=
  min n ((j : Int) * (chunk_size - overlap) + chunk_size).toNat

/-- The whole of `split_text`: encode, chunk (possibly raising), create the
output directory (`exist_ok=True`), write each chunk file. -/
def split_text (encode : String → List Nat) (decode : List Nat → String)
    (text output_dir : String) (chunk_size overlap : Int) (fs : FS) :
    Except String FS :=
  match splitChunks (encode text) chunk_size overlap with
  | .error e => .error e
  | .ok cks =>
    match makedirs fs output_dir true with
    | .error e => .error e
    | .ok fs1 =>
      .ok (cks.enum.foldl
        (fun s ick => setFile s (chunkName (ick.fst + 1)) (decode ick.snd)) fs1)

/-- `process_chunk`: the service oracle either yields a payload (the text of
a well-formed response) or fails (exception / invalid response); a payload is
stripped, any failure becomes `""`. -/
def process_chunk (svc : String → Option String) (chunk : String) : String :=
  match svc chunk with
  | some t => pyStrip t
  | none => ""

/-- Result of `update_chunk_files`: final filesystem, the returned
`updated_chunks` list, and the trace of file names read and sent to the
service (one entry per `process_chunk` call, in call order). -/
structure UpdResult where
  fs : FS
  updated : List String
  sent : List String
deriving DecidableEq

/-- One iteration of `update_chunk_files`' loop body. -/
def updateStep (svc : String → Option String) (r : UpdResult) (filename : String) :
    UpdResult :=
  if endswith ".txt" filename then
    let chunk := (getFile r.fs filename).getD ""
    let processed := process_chunk svc chunk
    if processed ≠ "" then
      { fs := setFile r.fs filename processed
      , updated := r.updated ++ [processed]
      , sent := r.sent ++ [filename] }
    else { r with sent := r.sent ++ [filename] }
  else r

/-- `update_chunk_files`: for each name in `sorted(os.listdir(dir))` ending in
`.txt`, read it, process it, and overwrite it only on a non-empty result. -/
def update_chunk_files (svc : String → Option String) (fs0 : FS) : UpdResult :=
  (pySorted (listdir fs0)).foldl (updateStep svc) ⟨fs0, [], []⟩

/-- `combine_chunks`: concatenate every `.txt` file (sorted name order) each
followed by a blank line, then strip the result. -/
def combine_chunks (fs : FS) : String :=
  pyStrip ((pySorted (listdir fs)).foldl
    (fun combined filename =>
      if endswith ".txt" filename then
        combined ++ (getFile fs filename).getD "" ++ "\n\n"
      else combined) "")

/-- `os.path.basename`. -/
def basename (p : String) : String := ⟨(p.data.reverse.takeWhile (fun c => c ≠ '/')).reverse⟩

/-- `os.path.splitext(...)[0]` on a basename: drop the last-dot extension. -/
def splitextBase (s : String) : String :=
  if (s.data.reverse.takeWhile (fun c => c ≠ '.')).length < s.data.length then
    ⟨(s.data.reverse.dropWhile (fun c => c ≠ '.')).drop 1 |>.reverse⟩
  else s

/-- The paragraph elements of `create_epub`:
`''.join(f'<p>{p}</p>' for p in content.split('\n\n') if p.strip())`. -/
def epubParagraphs (content : String) : List String :=
  ((pySplit "\n\n" content).filter (fun p => pyStrip p ≠ "")).map
    (fun p => "<p>" ++ p ++ "</p>")

/-- The e-book document `create_epub` assembles (serialisation to disk is the
external library's job). -/
structure EpubBook where
  identifier : String
  title : String
  language : String
  author : String
  chapterTitle : String
  chapterFile : String
  chapterHtml : String
  toc : List (String × String)
  spine : List String
deriving DecidableEq

/-- `create_epub` without the final `write_epub` I/O. -/
def create_epub (content filename author : String) : EpubBook :=
  let html_content := String.join (epubParagraphs content)
  { identifier := "id123456"
  , title := splitextBase (basename filename)
  , language := "en"
  , author := author
  , chapterTitle := "Chapter 1"
  , chapterFile := "chap_01.xhtml"
  , chapterHtml := "<html><body>" ++ html_content ++ "</body></html>"
  , toc := [("chap_01.xhtml", "Chapter 1")]
  , spine := ["nav", "Chapter 1"] }

/-- The pipeline tail after the chunker: process every chunk, combine, and
package; total — per-chunk service failures never escalate. -/
def pipelineAfterSplit (svc : String → Option String) (fs : FS)
    (epubName author : String) : String × EpubBook :=
  let fs1 := (update_chunk_files svc fs).fs
  let combined := combine_chunks fs1
  (combined, create_epub combined epubName author)

/-- Spec-worded joiner: contents "separated by a blank line between each
pair" (used to compare the Combiner against the specification's words). -/
def joinBlank : List String → String
  | [] => ""
  | [c] => c
  | c :: rest => c ++ "\n\n" ++ joinBlank rest

/-- Spec-worded view of the Combiner's inputs: the current contents of the
`.txt` files, in sorted name order. -/
def txtContents (fs : FS) : List String :=
  ((pySorted (listdir fs)).filter (fun f => endswith ".txt" f)).map
    (fun f => (getFile fs f).getD "")

/-- Spec-worded paragraph segmentation for the Packager: blank-line-delimited
segments that are non-empty after trimming. -/
def specSegments (content : String) : List String :=
  (pySplit "\n\n" content).filter (fun p => pyStrip p ≠ "")

/-- Each content followed by a blank-line separator, concatenated (the raw
shape `combine_chunks` accumulates before the final strip). -/
def sepConcat : List String → String
  | [] => ""
  | c :: t => c ++ "\n\n" ++ sepConcat t

/-- Count the paragraph elements of a chapter-html string. -/
def countPElems (html : String) : Nat := (pySplit "<p>" html).length - 1

/-- Write a batch of (path, content) pairs left to right. -/
def writeAll (ps : List (String × String)) (fs : FS) : FS :=
  ps.foldl (fun s pc => setFile s pc.fst pc.snd) fs

/-- Numeric value of a decimal digit character. -/
def digitVal (c : Char) : Nat := c.toNat - 48

/-- Evaluate a most-significant-first decimal digit string. -/
def valOfDigits (l : List Char) : Nat := l.foldl (fun a c => 10 * a + digitVal c) 0

/-! ### Decimal-representation facts: `Nat.repr` (hence chunk file names) is injective -/

lemma valOfDigits_foldl (l : List Char) (a : Nat) :
    l.foldl (fun x c => 10 * x + digitVal c) a = a * 10 ^ l.length + valOfDigits l := by
  induction l generalizing a with
  | nil => simp [valOfDigits]
  | cons c t ih =>
    have h1 : valOfDigits (c :: t) = digitVal c * 10 ^ t.length + valOfDigits t := by
      have := ih (digitVal c)
      simpa [valOfDigits] using this
    simp only [List.foldl_cons, ih, h1, List.length_cons]
    ring

lemma digitVal_digitChar (d : Nat) (h : d < 10) : digitVal (Nat.digitChar d) = d := by
  interval_cases d <;> rfl

lemma valOfDigits_toDigitsCore :
    ∀ (fuel n : Nat) (ds : List Char), n < 10 ^ fuel →
      valOfDigits (Nat.toDigitsCore 10 fuel n ds) = n * 10 ^ ds.length + valOfDigits ds := by
  intro fuel
  induction fuel with
  | zero =>
    intro n ds h
    have hn : n = 0 := by simpa using Nat.lt_one_iff.mp h
    simp [Nat.toDigitsCore, hn]
  | succ fuel ih =>
    intro n ds h
    by_cases h0 : n / 10 = 0
    · have hn : n < 10 := by omega
      have : Nat.toDigitsCore 10 (fuel + 1) n ds = Nat.digitChar (n % 10) :: ds := by
        simp [Nat.toDigitsCore, h0]
      rw [this]
      have : valOfDigits (Nat.digitChar (n % 10) :: ds) =
          digitVal (Nat.digitChar (n % 10)) * 10 ^ ds.length + valOfDigits ds := by
        have := valOfDigits_foldl ds (digitVal (Nat.digitChar (n % 10)))
        simpa [valOfDigits] using this
      rw [this, digitVal_digitChar _ (Nat.mod_lt _ (by norm_num))]
      have : n % 10 = n := Nat.mod_eq_of_lt hn
      rw [this]
    · have hstep : Nat.toDigitsCore 10 (fuel + 1) n ds =
          Nat.toDigitsCore 10 fuel (n / 10) (Nat.digitChar (n % 10) :: ds) := by
        simp [Nat.toDigitsCore, h0]
      have hlt : n / 10 < 10 ^ fuel := by
        have : 10 ^ (fuel + 1) = 10 * 10 ^ fuel := by ring
        rw [this] at h
        omega
      rw [hstep, ih _ _ hlt]
      have hval : valOfDigits (Nat.digitChar (n % 10) :: ds) =
          (n % 10) * 10 ^ ds.length + valOfDigits ds := by
        have h10 := valOfDigits_foldl ds (digitVal (Nat.digitChar (n % 10)))
        have hd10 := digitVal_digitChar (n % 10) (Nat.mod_lt _ (by norm_num))
        simp only [valOfDigits, List.foldl_cons, Nat.mul_zero, Nat.zero_add] at h10 ⊢
        rw [h10, hd10]
      rw [hval, List.length_cons]
      have hsplit : n = 10 * (n / 10) + n % 10 := (Nat.div_add_mod n 10).symm
      calc n / 10 * 10 ^ (ds.length + 1) + (n % 10 * 10 ^ ds.length + valOfDigits ds)
          = (10 * (n / 10) + n % 10) * 10 ^ ds.length + valOfDigits ds := by ring
        _ = n * 10 ^ ds.length + valOfDigits ds := by rw [← hsplit]

lemma valOfDigits_repr (n : Nat) : valOfDigits (Nat.repr n).data = n := by
  have h : n < 10 ^ (n + 1) := by
    have h2 : n + 1 < 10 ^ (n + 1) := Nat.lt_pow_self (by norm_num) (n + 1)
    omega
  have := valOfDigits_toDigitsCore (n + 1) n [] h
  simpa [Nat.repr, Nat.toDigits, List.asString, valOfDigits] using this

lemma repr_inj {m n : Nat} (h : Nat.repr m = Nat.repr n) : m = n := by
  have := congrArg (fun s => valOfDigits s.data) h
  simpa [valOfDigits_repr] using this

lemma chunkName_inj {m n : Nat} (h : chunkName m = chunkName n) : m = n := by
  apply repr_inj
  have hd : (chunkName m).data = (chunkName n).data := by rw [h]
  simp only [chunkName] at hd
  have hm : ("chunk_" ++ toString m ++ ".txt").data =
      "chunk_".data ++ (toString m).data ++ ".txt".data := by simp
  have hn : ("chunk_" ++ toString n ++ ".txt").data =
      "chunk_".data ++ (toString n).data ++ ".txt".data := by simp
  rw [hm, hn, List.append_assoc, List.append_assoc] at hd
  have h1 := List.append_cancel_left hd
  have h2 : (toString m).data = (toString n).data := List.append_cancel_right h1
  have hstr : (toString m) = (toString n) := by
    ext1
    exact h2
  exact hstr

/-! ### Slicing `List.range` and counting chunks -/

lemma range'_drop : ∀ (j s k : Nat), (List.range' s k).drop j = List.range' (s + j) (k - j) := by
  intro j
  induction j with
  | zero => intro s k; simp
  | succ j ih =>
    intro s k
    cases k with
    | zero => simp
    | succ k =>
      have h1 : s + 1 + j = s + (j + 1) := by omega
      have h2 : k - j = k + 1 - (j + 1) := by omega
      rw [List.range'_succ, List.drop_succ_cons, ih (s + 1) k, h1, h2]

lemma range'_take : ∀ (j s k : Nat), (List.range' s k).take j = List.range' s (min j k) := by
  intro j
  induction j with
  | zero => intro s k; simp
  | succ j ih =>
    intro s k
    cases k with
    | zero => simp
    | succ k =>
      rw [List.range'_succ, List.take_succ_cons, ih (s + 1) k]
      have h : min (j + 1) (k + 1) = (min j k) + 1 := by omega
      rw [h, List.range'_succ]

lemma toFinset_range' (s k : Nat) : (List.range' s k).toFinset = Finset.Ico s (s + k) := by
  ext x
  simp [List.mem_range'_1]

lemma pyRangeLen_pos (n : Nat) (step : Int) (h : 1 ≤ step) :
    pyRangeLen 0 n step = (n + (step.toNat - 1)) / step.toNat := by
  unfold pyRangeLen
  rw [if_pos (by omega : (0 : Int) < step)]
  norm_num

lemma numChunks_eq (n : Nat) (cs ov : Int) (h : ov < cs) :
    numChunks n cs ov = (n + ((cs - ov).toNat - 1)) / (cs - ov).toNat :=
  pyRangeLen_pos n (cs - ov) (by omega)

lemma lt_numChunks_iff (n : Nat) (cs ov : Int) (h : ov < cs) (j : Nat) :
    j < numChunks n cs ov ↔ j * (cs - ov).toNat < n := by
  rw [numChunks_eq n cs ov h]
  have hs1 : 1 ≤ (cs - ov).toNat := by omega
  constructor
  · intro hj
    have h2 : (j + 1) * (cs - ov).toNat ≤ n + ((cs - ov).toNat - 1) :=
      (Nat.le_div_iff_mul_le (by omega)).mp (Nat.succ_le_of_lt hj)
    have h3 : (j + 1) * (cs - ov).toNat = j * (cs - ov).toNat + (cs - ov).toNat := by ring
    rw [h3] at h2
    generalize j * (cs - ov).toNat = m at h2 ⊢
    omega
  · intro hj
    have h2 : (j + 1) * (cs - ov).toNat ≤ n + ((cs - ov).toNat - 1) := by
      have h3 : (j + 1) * (cs - ov).toNat = j * (cs - ov).toNat + (cs - ov).toNat := by ring
      rw [h3]
      generalize j * (cs - ov).toNat = m at hj
      omega
    exact Nat.lt_of_succ_le ((Nat.le_div_iff_mul_le (by omega)).mpr h2)

lemma length_chunksOf (tokens : List Nat) (cs ov : Int) :
    (chunksOf tokens cs ov).length = numChunks tokens.length cs ov := by
  unfold chunksOf pyRange numChunks
  rw [List.length_map, List.length_map, List.length_range]

lemma chunksOf_getD (tokens : List Nat) (cs ov : Int) (j : Nat)
    (h : j < numChunks tokens.length cs ov) :
    (chunksOf tokens cs ov).getD j [] =
      pySlice tokens (max 0 ((j : Int) * (cs - ov) - ov)) ((j : Int) * (cs - ov) + cs) := by
  have hk : j < (chunksOf tokens cs ov).length := by
    rw [length_chunksOf]; exact h
  rw [List.getD_eq_getElem _ _ hk]
  unfold chunksOf pyRange
  simp

lemma pySlice_range (n : Nat) (a b : Int) (ha : 0 ≤ a) (hb : 0 ≤ b) :
    pySlice (List.range n) a b =
      List.range' (min a.toNat n) (min b.toNat n - min a.toNat n) := by
  unfold pySlice pyIdx
  rw [if_neg (by omega), if_neg (by omega)]
  simp only [List.length_range]
  rw [List.range_eq_range', range'_drop, range'_take]
  have h : min (min b.toNat n - min a.toNat n) (n - min a.toNat n) =
      min b.toNat n - min a.toNat n := by omega
  rw [h, Nat.zero_add]

lemma cast_mul_stride (cs ov : Int) (h : ov < cs) (j : Nat) :
    (j : Int) * (cs - ov) = ((j * (cs - ov).toNat : Nat) : Int) := by
  have h1 : ((cs - ov).toNat : Int) = cs - ov := Int.toNat_of_nonneg (by omega)
  push_cast
  rw [h1]

lemma chunkRange_eq_Ico (n : Nat) (cs ov : Int) (j : Nat) (hov : 1 ≤ ov) (hcs : ov < cs)
    (hj : j < numChunks n cs ov) :
    chunkRange n cs ov j = Finset.Ico (winLo cs ov j) (winHi n cs ov j) := by
  have hjs : j * (cs - ov).toNat < n := (lt_numChunks_iff n cs ov hcs j).mp hj
  have hjn : j < numChunks (List.range n).length cs ov := by
    rw [List.length_range]; exact hj
  have hA := cast_mul_stride cs ov hcs j
  unfold chunkRange
  rw [chunksOf_getD _ _ _ _ hjn]
  rw [pySlice_range n _ _ (le_max_left 0 _) (by rw [hA]; omega)]
  rw [toFinset_range']
  unfold winLo winHi
  rw [hA]
  generalize j * (cs - ov).toNat = m at hjs ⊢
  congr 1 <;> omega

lemma chunkRange_inter_card (n : Nat) (cs ov : Int) (j : Nat)
    (hov : 1 ≤ ov) (hcs : ov < cs) (hj : j + 1 < numChunks n cs ov) :
    (chunkRange n cs ov j ∩ chunkRange n cs ov (j + 1)).card =
      winHi n cs ov j - winLo cs ov (j + 1) := by
  have hjs : (j + 1) * (cs - ov).toNat < n := (lt_numChunks_iff n cs ov hcs (j + 1)).mp hj
  rw [chunkRange_eq_Ico n cs ov j hov hcs (by omega),
    chunkRange_eq_Ico n cs ov (j + 1) hov hcs hj]
  rw [Finset.Ico_inter_Ico, Nat.card_Ico]
  unfold winLo winHi
  have hA := cast_mul_stride cs ov hcs j
  have hA1 := cast_mul_stride cs ov hcs (j + 1)
  have hmul : (j + 1) * (cs - ov).toNat = j * (cs - ov).toNat + (cs - ov).toNat := by ring
  rw [hA, hA1, hmul]
  rw [hmul] at hjs
  generalize j * (cs - ov).toNat = m at hjs ⊢
  omega

lemma winDiff_gt_overlap (n : Nat) (cs ov : Int) (j : Nat)
    (hov : 1 ≤ ov) (hcs : 2 * ov ≤ cs) (hj : j + 1 < numChunks n cs ov) :
    ov.toNat < winHi n cs ov j - winLo cs ov (j + 1) := by
  have hcs' : ov < cs := by omega
  have hjs : (j + 1) * (cs - ov).toNat < n := (lt_numChunks_iff n cs ov hcs' (j + 1)).mp hj
  unfold winLo winHi
  have hA := cast_mul_stride cs ov hcs' j
  have hA1 := cast_mul_stride cs ov hcs' (j + 1)
  have hmul : (j + 1) * (cs - ov).toNat = j * (cs - ov).toNat + (cs - ov).toNat := by ring
  rw [hA, hA1, hmul]
  rw [hmul] at hjs
  generalize j * (cs - ov).toNat = m at hjs ⊢
  omega

lemma winDiff_eq_two_overlap (n : Nat) (cs ov : Int) (j : Nat)
    (hov : 1 ≤ ov) (hcs : 2 * ov ≤ cs) (hfull : (j : Int) * (cs - ov) + cs ≤ n)
    (hj : j + 1 < numChunks n cs ov) :
    winHi n cs ov j - winLo cs ov (j + 1) = (2 * ov).toNat := by
  have hcs' : ov < cs := by omega
  unfold winLo winHi
  have hA := cast_mul_stride cs ov hcs' j
  have hA1 := cast_mul_stride cs ov hcs' (j + 1)
  have hmul : (j + 1) * (cs - ov).toNat = j * (cs - ov).toNat + (cs - ov).toNat := by ring
  rw [hA] at hfull
  rw [hA, hA1, hmul]
  generalize j * (cs - ov).toNat = m at hfull ⊢
  omega

/-! ### Filesystem lemmas -/

lemma find?_map_overwrite_self (l : List (String × String)) (p c : String) :
    ((l.map (fun kv => if kv.fst == p then (p, c) else kv)).find? (fun kv => kv.fst == p)) =
      if l.any (fun kv => kv.fst == p) then some (p, c) else none := by
  induction l with
  | nil => rfl
  | cons kv t ih =>
    by_cases h : kv.fst == p
    · rw [List.map_cons, if_pos h, List.find?_cons_of_pos _ (by simp)]
      simp [h]
    · rw [List.map_cons, if_neg h, List.find?_cons_of_neg _ (by exact h), ih, List.any_cons]
      have hb : (kv.fst == p) = false := by simpa using h
      rw [hb, Bool.false_or]

lemma find?_map_overwrite_ne (l : List (String × String)) (p c q : String) (hq : q ≠ p) :
    ((l.map (fun kv => if kv.fst == p then (p, c) else kv)).find? (fun kv => kv.fst == q)) =
      l.find? (fun kv => kv.fst == q) := by
  have hpq : ¬ p = q := fun e => hq e.symm
  induction l with
  | nil => rfl
  | cons kv t ih =>
    by_cases h : kv.fst == p
    · have hkv : kv.fst = p := by simpa using h
      rw [List.map_cons, if_pos h, List.find?_cons_of_neg _ (by simp [hpq]),
        List.find?_cons_of_neg _ (by simp [hkv, hpq]), ih]
    · rw [List.map_cons, if_neg h]
      by_cases h2 : kv.fst == q
      · rw [List.find?_cons_of_pos _ (by exact h2), List.find?_cons_of_pos _ (by exact h2)]
      · rw [List.find?_cons_of_neg _ (by exact h2), List.find?_cons_of_neg _ (by exact h2), ih]

lemma any_key_iff (fs : FS) (p : String) :
    fs.files.any (fun kv => kv.fst == p) = true ↔ p ∈ listdir fs := by
  simp only [listdir, List.any_eq_true, List.mem_map, beq_iff_eq]

lemma getFile_setFile (fs : FS) (p c q : String) :
    getFile (setFile fs p c) q = if q = p then some c else getFile fs q := by
  unfold getFile setFile
  by_cases hex : fs.files.any (fun kv => kv.fst == p)
  · rw [if_pos hex]
    by_cases hq : q = p
    · subst hq
      rw [find?_map_overwrite_self fs.files q c, if_pos hex]
      simp
    · simp only [find?_map_overwrite_ne fs.files p c q hq, if_neg hq]
  · rw [if_neg hex]
    simp only [List.find?_append]
    by_cases hq : q = p
    · subst hq
      have hnone : fs.files.find? (fun kv => kv.fst == q) = none := by
        rw [List.find?_eq_none]
        intro kv hkv
        intro hb
        exact hex (List.any_eq_true.mpr ⟨kv, hkv, hb⟩)
      simp [hnone, List.find?]
    · have hpq : ¬ p = q := fun e => hq e.symm
      cases hfind : fs.files.find? (fun kv => kv.fst == q) with
      | none =>
        have hb : (p == q) = false := by simp [hpq]
        simp [hfind, List.find?, hb, hq]
      | some kv => simp [hfind, hq]

lemma dirs_setFile (fs : FS) (p c : String) : (setFile fs p c).dirs = fs.dirs := by
  unfold setFile
  split <;> rfl

lemma listdir_setFile_mem (fs : FS) (p c : String) (h : p ∈ listdir fs) :
    listdir (setFile fs p c) = listdir fs := by
  unfold setFile
  rw [if_pos ((any_key_iff fs p).mpr h)]
  unfold listdir
  simp only [List.map_map]
  apply List.map_congr_left
  intro kv _
  by_cases hkv : kv.fst == p
  · have : kv.fst = p := by simpa using hkv
    simp [Function.comp, hkv, this]
  · simp [Function.comp, hkv]

lemma listdir_setFile_new (fs : FS) (p c : String) (h : ¬ p ∈ listdir fs) :
    listdir (setFile fs p c) = listdir fs ++ [p] := by
  unfold setFile
  rw [if_neg (fun ha => h ((any_key_iff fs p).mp ha))]
  unfold listdir
  simp

lemma mem_of_getFile {fs : FS} {q c : String} (h : getFile fs q = some c) :
    q ∈ listdir fs := by
  unfold getFile at h
  cases hfind : fs.files.find? (fun kv => kv.fst == q) with
  | none => rw [hfind] at h; simp at h
  | some kv =>
    have hmem := List.mem_of_find?_eq_some hfind
    have hq : kv.fst = q := by simpa using List.find?_some hfind
    exact hq ▸ List.mem_map.mpr ⟨kv, hmem, rfl⟩

lemma getFile_of_mem {fs : FS} {q : String} (h : q ∈ listdir fs) :
    ∃ c, getFile fs q = some c := by
  obtain ⟨kv, hkv, he⟩ := List.mem_map.mp h
  have hsome : (fs.files.find? (fun kv => kv.fst == q)).isSome :=
    List.find?_isSome.mpr ⟨kv, hkv, by simp [he]⟩
  cases hfind : fs.files.find? (fun kv => kv.fst == q) with
  | none => rw [hfind] at hsome; simp at hsome
  | some kv2 => exact ⟨kv2.snd, by unfold getFile; rw [hfind]; rfl⟩

lemma writeAll_nil (fs : FS) : writeAll [] fs = fs := rfl

lemma writeAll_cons (pc : String × String) (t : List (String × String)) (fs : FS) :
    writeAll (pc :: t) fs = writeAll t (setFile fs pc.fst pc.snd) := rfl

lemma dirs_writeAll (ps : List (String × String)) (fs : FS) :
    (writeAll ps fs).dirs = fs.dirs := by
  induction ps generalizing fs with
  | nil => rfl
  | cons pc t ih => rw [writeAll_cons, ih, dirs_setFile]

lemma getFile_writeAll_not_mem (ps : List (String × String)) (fs : FS) (q : String)
    (h : ¬ q ∈ ps.map Prod.fst) :
    getFile (writeAll ps fs) q = getFile fs q := by
  induction ps generalizing fs with
  | nil => rfl
  | cons pc t ih =>
    simp only [List.map_cons, List.mem_cons, not_or] at h
    rw [writeAll_cons, ih _ h.2, getFile_setFile, if_neg h.1]

lemma getFile_writeAll_indep (ps : List (String × String)) (q : String)
    (h : q ∈ ps.map Prod.fst) (fs fs' : FS) :
    getFile (writeAll ps fs) q = getFile (writeAll ps fs') q := by
  induction ps generalizing fs fs' with
  | nil => simp at h
  | cons pc t ih =>
    rw [writeAll_cons, writeAll_cons]
    by_cases hm : q ∈ t.map Prod.fst
    · exact ih hm _ _
    · have hq : q = pc.fst := by
        simp only [List.map_cons, List.mem_cons] at h
        tauto
      rw [getFile_writeAll_not_mem t _ _ hm, getFile_writeAll_not_mem t _ _ hm,
        getFile_setFile, getFile_setFile, if_pos hq, if_pos hq]

lemma getFile_writeAll_writeAll (ps : List (String × String)) (fs : FS) (q : String) :
    getFile (writeAll ps (writeAll ps fs)) q = getFile (writeAll ps fs) q := by
  by_cases h : q ∈ ps.map Prod.fst
  · exact getFile_writeAll_indep ps q h _ _
  · rw [getFile_writeAll_not_mem ps _ q h, getFile_writeAll_not_mem ps _ q h]

lemma listdir_writeAll_fresh (ps : List (String × String)) (fs : FS)
    (hnd : (ps.map Prod.fst).Nodup)
    (hfresh : ∀ p ∈ ps.map Prod.fst, ¬ p ∈ listdir fs) :
    listdir (writeAll ps fs) = listdir fs ++ ps.map Prod.fst := by
  induction ps generalizing fs with
  | nil => simp [writeAll_nil]
  | cons pc t ih =>
    rw [writeAll_cons]
    simp only [List.map_cons, List.nodup_cons] at hnd
    have h1 : ¬ pc.fst ∈ listdir fs := hfresh pc.fst (by simp)
    have h2 : ∀ p ∈ t.map Prod.fst, ¬ p ∈ listdir (setFile fs pc.fst pc.snd) := by
      intro p hp
      rw [listdir_setFile_new fs _ _ h1]
      simp only [List.mem_append, List.mem_singleton, not_or]
      exact ⟨hfresh p (by simp [hp]), fun e => hnd.1 (e ▸ hp)⟩
    rw [ih _ hnd.2 h2, listdir_setFile_new fs _ _ h1]
    simp

lemma makedirs_true_ok (fs : FS) (d : String) :
    ∃ fs1, makedirs fs d true = .ok fs1 ∧ fs1.files = fs.files ∧ d ∈ fs1.dirs := by
  unfold makedirs
  by_cases h : fs.dirs.contains d
  · exact ⟨fs, by rw [if_pos h, if_pos rfl], rfl, by simpa using h⟩
  · exact ⟨{ fs with dirs := fs.dirs ++ [d] }, by rw [if_neg h], rfl, by simp⟩

lemma makedirs_mem_ok (fs : FS) (d : String) (h : d ∈ fs.dirs) :
    makedirs fs d true = .ok fs := by
  unfold makedirs
  rw [if_pos (by simpa using h), if_pos rfl]

/-! ### Sorting facts -/

lemma pySorted_perm (l : List String) : (pySorted l).Perm l :=
  List.perm_insertionSort _ l

lemma pySorted_nodup {l : List String} (h : l.Nodup) : (pySorted l).Nodup :=
  ((pySorted_perm l).nodup_iff).mpr h

lemma mem_pySorted (l : List String) (q : String) : q ∈ pySorted l ↔ q ∈ l :=
  (pySorted_perm l).mem_iff

/-! ### Chunk Processor characterisation -/

lemma getFile_updateStep_ne (svc : String → Option String) (r : UpdResult)
    (f p : String) (hp : p ≠ f) :
    getFile (updateStep svc r f).fs p = getFile r.fs p := by
  unfold updateStep
  by_cases htxt : endswith ".txt" f = true
  · rw [if_pos htxt]
    by_cases hproc : process_chunk svc ((getFile r.fs f).getD "") ≠ ""
    · rw [if_pos hproc]
      show getFile (setFile r.fs f _) p = _
      rw [getFile_setFile, if_neg hp]
    · rw [if_neg hproc]
  · rw [if_neg htxt]

lemma foldl_updateStep_fs (svc : String → Option String) :
    ∀ (names : List String) (r : UpdResult), names.Nodup → ∀ p,
      getFile ((names.foldl (updateStep svc) r).fs) p =
        if p ∈ names ∧ endswith ".txt" p = true ∧
            process_chunk svc ((getFile r.fs p).getD "") ≠ ""
        then some (process_chunk svc ((getFile r.fs p).getD ""))
        else getFile r.fs p := by
  intro names
  induction names with
  | nil =>
    intro r _ p
    simp
  | cons f t ih =>
    intro r hnd p
    have hf : ¬ f ∈ t := (List.nodup_cons.mp hnd).1
    have ht : t.Nodup := (List.nodup_cons.mp hnd).2
    rw [List.foldl_cons]
    by_cases hp : p = f
    · subst hp
      rw [ih _ ht p]
      rw [if_neg (fun hc => hf hc.1)]
      unfold updateStep
      by_cases htxt : endswith ".txt" p = true
      · rw [if_pos htxt]
        by_cases hproc : process_chunk svc ((getFile r.fs p).getD "") ≠ ""
        · rw [if_pos hproc]
          show getFile (setFile r.fs p _) p = _
          rw [getFile_setFile, if_pos rfl,
            if_pos ⟨List.mem_cons_self p t, htxt, hproc⟩]
        · rw [if_neg hproc]
          show getFile r.fs p = _
          rw [if_neg (fun hc => hproc hc.2.2)]
      · rw [if_neg htxt]
        rw [if_neg (fun hc => htxt hc.2.1)]
    · have hstep := getFile_updateStep_ne svc r f p hp
      rw [ih _ ht p, hstep]
      have hiff : (p ∈ f :: t) = (p ∈ t) := by simp [List.mem_cons, hp]
      simp only [hiff]

lemma update_chunk_files_getFile (svc : String → Option String) (fs0 : FS)
    (hnd : (listdir fs0).Nodup) (p : String) :
    getFile (update_chunk_files svc fs0).fs p =
      if p ∈ listdir fs0 ∧ endswith ".txt" p = true ∧
          process_chunk svc ((getFile fs0 p).getD "") ≠ ""
      then some (process_chunk svc ((getFile fs0 p).getD ""))
      else getFile fs0 p := by
  unfold update_chunk_files
  rw [foldl_updateStep_fs svc _ _ (pySorted_nodup hnd) p]
  have hmem : (p ∈ pySorted (listdir fs0)) = (p ∈ listdir fs0) :=
    propext (mem_pySorted _ p)
  simp only [hmem]

lemma foldl_updateStep_sent (svc : String → Option String) :
    ∀ (names : List String) (r : UpdResult),
      (names.foldl (updateStep svc) r).sent =
        r.sent ++ names.filter (fun f => endswith ".txt" f) := by
  intro names
  induction names with
  | nil => intro r; simp
  | cons f t ih =>
    intro r
    rw [List.foldl_cons, ih]
    unfold updateStep
    by_cases htxt : endswith ".txt" f = true
    · rw [if_pos htxt]
      by_cases hproc : process_chunk svc ((getFile r.fs f).getD "") ≠ ""
      · rw [if_pos hproc]
        simp [List.filter_cons, htxt]
      · rw [if_neg hproc]
        simp [List.filter_cons, htxt]
    · rw [if_neg htxt]
      simp [List.filter_cons, htxt]

lemma update_chunk_files_sent (svc : String → Option String) (fs0 : FS) :
    (update_chunk_files svc fs0).sent =
      (pySorted (listdir fs0)).filter (fun f => endswith ".txt" f) := by
  unfold update_chunk_files
  rw [foldl_updateStep_sent]
  simp

/-! ### Combiner lemmas -/

lemma dropWhile_append_of_all {p : Char → Bool} (w x : List Char) (hw : w.all p = true) :
    (w ++ x).dropWhile p = x.dropWhile p := by
  induction w with
  | nil => rfl
  | cons c t ih =>
    simp only [List.all_cons, Bool.and_eq_true] at hw
    simp [List.dropWhile_cons, hw.1, ih hw.2]

lemma dropWhile_append_of_ne {p : Char → Bool} :
    ∀ (l w : List Char), l.dropWhile p ≠ [] →
      (l ++ w).dropWhile p = l.dropWhile p ++ w
  | [], _, h => absurd rfl h
  | c :: t, w, h => by
    by_cases hc : p c
    · simp only [List.dropWhile_cons, hc, if_true] at h
      simp only [List.cons_append, List.dropWhile_cons, hc, if_true]
      exact dropWhile_append_of_ne t w h
    · simp [List.dropWhile_cons, hc]

lemma pyStripL_append_space (l w : List Char) (hw : w.all isPySpace = true) :
    pyStripL (l ++ w) = pyStripL l := by
  unfold pyStripL
  by_cases hl : l.dropWhile isPySpace = []
  · have hall : l.all isPySpace = true := by
      rw [List.dropWhile_eq_nil_iff] at hl
      rw [List.all_eq_true]
      exact hl
    have h1 : (l ++ w).dropWhile isPySpace = w.dropWhile isPySpace :=
      dropWhile_append_of_all l w hall
    have h2 : w.dropWhile isPySpace = [] := by
      rw [List.dropWhile_eq_nil_iff]
      exact fun x hx => List.all_eq_true.mp hw x hx
    rw [h1, h2, hl]
  · have h1 : (l ++ w).dropWhile isPySpace = l.dropWhile isPySpace ++ w :=
      dropWhile_append_of_ne l w hl
    have hwrev : w.reverse.all isPySpace = true := by
      rw [List.all_eq_true] at hw ⊢
      intro x hx
      exact hw x (List.mem_reverse.mp hx)
    rw [h1, List.reverse_append, dropWhile_append_of_all w.reverse _ hwrev]

lemma pyStrip_append_nn (s : String) : pyStrip (s ++ "\n\n") = pyStrip s := by
  unfold pyStrip
  have hd : (s ++ "\n\n").data = s.data ++ ['\n', '\n'] := by simp
  rw [hd, pyStripL_append_space s.data ['\n', '\n'] (by rfl)]

lemma foldl_filter {α β : Type} (p : α → Bool) (g : β → α → β) :
    ∀ (l : List α) (a : β),
      l.foldl (fun acc x => if p x then g acc x else acc) a = (l.filter p).foldl g a := by
  intro l
  induction l with
  | nil => intro a; rfl
  | cons x t ih =>
    intro a
    rw [List.foldl_cons, List.filter_cons]
    by_cases hx : p x
    · rw [if_pos hx, if_pos hx, List.foldl_cons, ih]
    · rw [if_neg hx, if_neg hx, ih]

lemma foldl_sepConcat : ∀ (cs : List String) (a : String),
    cs.foldl (fun acc c => acc ++ c ++ "\n\n") a = a ++ sepConcat cs := by
  intro cs
  induction cs with
  | nil => intro a; simp [sepConcat, String.append_empty]
  | cons c t ih =>
    intro a
    rw [List.foldl_cons, ih, sepConcat]
    simp [String.append_assoc]

lemma sepConcat_eq_joinBlank : ∀ (cs : List String), cs ≠ [] →
    sepConcat cs = joinBlank cs ++ "\n\n"
  | [c], _ => by
    show c ++ "\n\n" ++ sepConcat [] = joinBlank [c] ++ "\n\n"
    rw [show sepConcat ([] : List String) = "" from rfl, String.append_empty]
    rfl
  | c :: c' :: t, _ => by
    show c ++ "\n\n" ++ sepConcat (c' :: t) = joinBlank (c :: c' :: t) ++ "\n\n"
    rw [sepConcat_eq_joinBlank (c' :: t) (by simp)]
    show _ = (c ++ "\n\n" ++ joinBlank (c' :: t)) ++ "\n\n"
    rw [String.append_assoc, String.append_assoc, String.append_assoc]

lemma combine_chunks_eq_spec (fs : FS) :
    combine_chunks fs = pyStrip (joinBlank (txtContents fs)) := by
  unfold combine_chunks txtContents
  rw [foldl_filter (fun f => endswith ".txt" f)
    (fun acc f => acc ++ (getFile fs f).getD "" ++ "\n\n")]
  rw [← List.foldl_map (fun f => (getFile fs f).getD "")
    (fun acc c => acc ++ c ++ "\n\n")]
  rw [foldl_sepConcat, String.empty_append]
  cases hcs : ((pySorted (listdir fs)).filter (fun f => endswith ".txt" f)).map
      (fun f => (getFile fs f).getD "") with
  | nil => rfl
  | cons c t =>
    rw [sepConcat_eq_joinBlank (c :: t) (by simp), pyStrip_append_nn]

lemma pyStrip_all_space (w : String) (hw : w.data.all isPySpace = true) :
    pyStrip w = "" := by
  unfold pyStrip pyStripL
  have h : w.data.dropWhile isPySpace = [] := by
    rw [List.dropWhile_eq_nil_iff]
    exact fun x hx => List.all_eq_true.mp hw x hx
  rw [h]
  rfl

lemma combine_setFile_non_txt (fs : FS) (p c' : String) (hmem : p ∈ listdir fs)
    (htxt : ¬ endswith ".txt" p = true) :
    combine_chunks (setFile fs p c') = combine_chunks fs := by
  rw [combine_chunks_eq_spec, combine_chunks_eq_spec]
  have htc : txtContents (setFile fs p c') = txtContents fs := by
    unfold txtContents
    rw [listdir_setFile_mem fs p c' hmem]
    apply List.map_congr_left
    intro q hq
    have hqtxt : endswith ".txt" q = true := (List.mem_filter.mp hq).2
    have hne : q ≠ p := fun e => htxt (e ▸ hqtxt)
    rw [getFile_setFile, if_neg hne]
  rw [htc]

lemma chunkNames_nodup (k : Nat) :
    ((List.range k).map (fun i => chunkName (i + 1))).Nodup := by
  refine List.Nodup.map ?_ (List.nodup_range k)
  intro i j hij
  have := chunkName_inj hij
  omega

lemma split_text_ok (encode : String → List Nat) (decode : List Nat → String)
    (text dir : String) (cs ov : Int) (fs : FS) (h : ¬ cs - ov = 0) :
    ∃ fs1, makedirs fs dir true = .ok fs1 ∧ fs1.files = fs.files ∧ dir ∈ fs1.dirs ∧
      split_text encode decode text dir cs ov fs =
        .ok (writeAll ((chunksOf (encode text) cs ov).enum.map
          (fun ick => (chunkName (ick.fst + 1), decode ick.snd))) fs1) := by
  obtain ⟨fs1, hmk, hfiles, hdir⟩ := makedirs_true_ok fs dir
  refine ⟨fs1, hmk, hfiles, hdir, ?_⟩
  unfold split_text splitChunks
  rw [if_neg h, hmk]
  unfold writeAll
  rw [List.foldl_map]

/-! ### Claim theorems -/

/-- Claim C1, counterexample: with `chunk_size = 3 > overlap = 1 ≥ 1` and 5 tokens
(three chunks produced), the token ranges of chunk 1 and chunk 2 intersect in 2
positions, not exactly `overlap = 1` as the claim states. -/
theorem claim1_counterexample :
    numChunks 5 3 1 = 3 ∧
    (chunkRange 5 3 1 0 ∩ chunkRange 5 3 1 1).card = 2 ∧
    ¬ (chunkRange 5 3 1 0 ∩ chunkRange 5 3 1 1).card = 1 := by
  decide

/-- Claim C1, amended: consecutive chunk windows `j` and `j+1` intersect in exactly
`min(n, j*stride + chunk_size) - max(0, (j+1)*stride - overlap)` token positions;
when `chunk_size ≥ 2*overlap` this is strictly greater than `overlap`, and equals
`2*overlap` whenever window `j` is not clipped by the end of the token sequence.
The first chunk has no preceding overlap, as before. -/
theorem claim1_amended (n : Nat) (cs ov : Int) (j : Nat) (hov : 1 ≤ ov) (hcs : ov < cs)
    (hj : j + 1 < numChunks n cs ov) :
    (chunkRange n cs ov j ∩ chunkRange n cs ov (j + 1)).card =
      winHi n cs ov j - winLo cs ov (j + 1) ∧
    (2 * ov ≤ cs → ov.toNat < winHi n cs ov j - winLo cs ov (j + 1)) ∧
    (2 * ov ≤ cs → (j : Int) * (cs - ov) + cs ≤ n →
      winHi n cs ov j - winLo cs ov (j + 1) = (2 * ov).toNat) :=
  ⟨chunkRange_inter_card n cs ov j hov hcs hj,
   fun h2 => winDiff_gt_overlap n cs ov j hov h2 hj,
   fun h2 hfull => winDiff_eq_two_overlap n cs ov j hov h2 hfull hj⟩

/-- Witness for the amended C1 at `n = 12`, `chunk_size = 4`, `overlap = 1`, `j = 1`. -/
theorem claim1_amended_witness :
    (chunkRange 12 4 1 1 ∩ chunkRange 12 4 1 2).card = winHi 12 4 1 1 - winLo 4 1 2 ∧
    ((2 : Int) * 1 ≤ 4 → (1 : Int).toNat < winHi 12 4 1 1 - winLo 4 1 2) ∧
    ((2 : Int) * 1 ≤ 4 → ((1 : Nat) : Int) * (4 - 1) + 4 ≤ 12 →
      winHi 12 4 1 1 - winLo 4 1 2 = ((2 : Int) * 1).toNat) :=
  claim1_amended 12 4 1 1 (by decide) (by decide) (by decide)

/-- Claim C2: the lexicographic processing/concatenation order breaks chunk
numbering order as soon as 10 chunks exist: with ten chunk files the Chunk
Processor reads `chunk_10.txt` second (before `chunk_2.txt`), and the Combiner
concatenates the contents in that same wrong order. -/
theorem claim2_code_bug :
    pySorted ((List.range 10).map (fun k => chunkName (k + 1))) =
      ["chunk_1.txt", "chunk_10.txt", "chunk_2.txt", "chunk_3.txt", "chunk_4.txt",
       "chunk_5.txt", "chunk_6.txt", "chunk_7.txt", "chunk_8.txt", "chunk_9.txt"] ∧
    pySorted ((List.range 10).map (fun k => chunkName (k + 1))) ≠
      (List.range 10).map (fun k => chunkName (k + 1)) ∧
    (update_chunk_files (fun _ => none)
        ⟨[], (List.range 10).map (fun k => (chunkName (k + 1), "c" ++ toString (k + 1)))⟩).sent =
      ["chunk_1.txt", "chunk_10.txt", "chunk_2.txt", "chunk_3.txt", "chunk_4.txt",
       "chunk_5.txt", "chunk_6.txt", "chunk_7.txt", "chunk_8.txt", "chunk_9.txt"] ∧
    combine_chunks
        ⟨[], (List.range 10).map (fun k => (chunkName (k + 1), "c" ++ toString (k + 1)))⟩ =
      "c1\n\nc10\n\nc2\n\nc3\n\nc4\n\nc5\n\nc6\n\nc7\n\nc8\n\nc9" := by
  refine ⟨by decide, by decide, by decide, by decide⟩

/-- Claim C3, counterexample: with `chunk_size = 1 < overlap = 2` (stride `-1`)
the Chunker is not rejected with a configuration error: `range` is empty, so the
run silently succeeds, creating the output directory and zero chunk files. -/
theorem claim3_counterexample :
    splitChunks [0, 1, 2] 1 2 = .ok [] ∧
    split_text (fun _ => [0, 1, 2]) (fun _ => "") "text" "out" 1 2 ⟨[], []⟩ =
      .ok ⟨["out"], []⟩ := by
  exact ⟨rfl, rfl⟩

/-- Claim C3, amended: the code performs no explicit validation.  With
`chunk_size = overlap` the run aborts with Python's `range` `ValueError` (raised
before any file is written); with `chunk_size < overlap` the chunker silently
produces zero chunks; with `overlap < 0 < stride` it emits degenerate windows
(e.g. `chunk_size = 0`, `overlap = -1` yields empty windows, one per token). -/
theorem claim3_amended (tokens : List Nat) (cs ov : Int) :
    (cs = ov → splitChunks tokens cs ov =
      .error "ValueError: range() arg 3 must not be zero") ∧
    (cs < ov → splitChunks tokens cs ov = .ok []) ∧
    splitChunks [5, 6, 7] 0 (-1) = .ok [[], [], []] := by
  refine ⟨fun h => ?_, fun h => ?_, rfl⟩
  · unfold splitChunks
    rw [if_pos (by omega)]
  · unfold splitChunks
    rw [if_neg (by omega)]
    unfold chunksOf pyRange pyRangeLen
    rw [if_neg (by omega), if_pos (by omega)]
    have h1 : ((0 : Int) - (tokens.length : Int)).toNat = 0 := by omega
    rw [h1]
    have h2 : (0 + ((-(cs - ov)).toNat - 1)) / (-(cs - ov)).toNat = 0 := by
      apply Nat.div_eq_of_lt
      omega
    rw [h2]
    rfl

/-- Witness for the amended C3 at concrete parameters. -/
theorem claim3_amended_witness :
    splitChunks [9] 2 2 = .error "ValueError: range() arg 3 must not be zero" ∧
    splitChunks [9] 1 2 = .ok [] :=
  ⟨(claim3_amended [9] 2 2).1 rfl, (claim3_amended [9] 1 2).2.1 (by decide)⟩

/-- Claim C4: for `chunk_size > overlap ≥ 1` the chunker succeeds and produces
exactly `⌈total_tokens / stride⌉` chunks (here written `(n + (stride-1)) / stride`);
an empty input yields zero chunks without error; 10000 tokens with
`chunk_size = 3000`, `overlap = 100` yield exactly 4 chunks; and running
`split_text` into a fresh directory writes exactly the files
`chunk_1.txt … chunk_k.txt` for `k = numChunks`. -/
theorem claim4_chunk_count :
    (∀ (tokens : List Nat) (cs ov : Int), 1 ≤ ov → ov < cs →
      splitChunks tokens cs ov = .ok (chunksOf tokens cs ov) ∧
      (chunksOf tokens cs ov).length =
        (tokens.length + ((cs - ov).toNat - 1)) / (cs - ov).toNat) ∧
    (chunksOf ([] : List Nat) 3000 100 = [] ∧
      splitChunks ([] : List Nat) 3000 100 = .ok []) ∧
    numChunks 10000 3000 100 = 4 ∧
    (∀ (encode : String → List Nat) (decode : List Nat → String)
      (text dir : String) (cs ov : Int), 1 ≤ ov → ov < cs →
      ∃ fsr, split_text encode decode text dir cs ov ⟨[], []⟩ = .ok fsr ∧
        listdir fsr = (List.range (numChunks (encode text).length cs ov)).map
          (fun i => chunkName (i + 1))) := by
  refine ⟨?_, ⟨rfl, rfl⟩, by decide, ?_⟩
  · intro tokens cs ov hov hcs
    constructor
    · unfold splitChunks
      rw [if_neg (by omega)]
    · rw [length_chunksOf, numChunks_eq tokens.length cs ov hcs]
  · intro encode decode text dir cs ov hov hcs
    obtain ⟨fs1, hmk, hfiles, hdir, heq⟩ :=
      split_text_ok encode decode text dir cs ov ⟨[], []⟩ (by omega)
    refine ⟨_, heq, ?_⟩
    have hld1 : listdir fs1 = [] := by
      unfold listdir
      rw [hfiles]
      rfl
    have hnames : ((chunksOf (encode text) cs ov).enum.map
        (fun ick => (chunkName (ick.fst + 1), decode ick.snd))).map Prod.fst =
        (List.range (numChunks (encode text).length cs ov)).map
          (fun i => chunkName (i + 1)) := by
      rw [List.map_map]
      have : (Prod.fst ∘ fun ick : Nat × List Nat =>
          (chunkName (ick.fst + 1), decode ick.snd)) =
          (fun i => chunkName (i + 1)) ∘ Prod.fst := by
        funext ick
        rfl
      rw [this, ← List.map_map, List.enum_map_fst, length_chunksOf]
    rw [listdir_writeAll_fresh _ _ (by rw [hnames]; exact chunkNames_nodup _)
      (by rw [hld1]; intro p _ hp; exact (List.not_mem_nil p) hp), hld1, hnames]
    rfl

/-- Witness for C4 at concrete inputs. -/
theorem claim4_witness :
    (splitChunks [0, 1, 2] 3 1 = .ok (chunksOf [0, 1, 2] 3 1) ∧
      (chunksOf [0, 1, 2] 3 1).length =
        ((3 : Nat) + (((3 : Int) - 1).toNat - 1)) / ((3 : Int) - 1).toNat) ∧
    ∃ fsr, split_text (fun _ => [0, 1, 2]) (fun _ => "x") "t" "out" 3 1 ⟨[], []⟩ =
        .ok fsr ∧
      listdir fsr = (List.range (numChunks 3 3 1)).map (fun i => chunkName (i + 1)) :=
  ⟨claim4_chunk_count.1 [0, 1, 2] 3 1 (by decide) (by decide),
   claim4_chunk_count.2.2.2 (fun _ => [0, 1, 2]) (fun _ => "x") "t" "out" 3 1
     (by decide) (by decide)⟩

/-- Claim C5: when the service call for a chunk fails (exception, invalid
response, or empty payload — all of which make `process_chunk` return `""`),
that chunk's file keeps its pre-edit content, every other chunk whose call
succeeds is still updated, and the pipeline still reaches the Combiner and the
Packager on the updated state. -/
theorem claim5_service_failure (svc : String → Option String) (fs : FS)
    (p c epubName author : String)
    (hnd : (listdir fs).Nodup) (hp : getFile fs p = some c)
    (htxt : endswith ".txt" p = true)
    (hfail : process_chunk svc c = "") :
    getFile (update_chunk_files svc fs).fs p = some c ∧
    (∀ q c', getFile fs q = some c' → endswith ".txt" q = true →
      process_chunk svc c' ≠ "" →
      getFile (update_chunk_files svc fs).fs q = some (process_chunk svc c')) ∧
    pipelineAfterSplit svc fs epubName author =
      (combine_chunks (update_chunk_files svc fs).fs,
       create_epub (combine_chunks (update_chunk_files svc fs).fs) epubName author) := by
  refine ⟨?_, ?_, rfl⟩
  · rw [update_chunk_files_getFile svc fs hnd p, hp]
    simp only [Option.getD_some]
    rw [if_neg (fun hc => hc.2.2 hfail)]
  · intro q c' hq hqt hqproc
    rw [update_chunk_files_getFile svc fs hnd q, hq]
    simp only [Option.getD_some]
    rw [if_pos ⟨mem_of_getFile hq, hqt, hqproc⟩]

/-- Witness for C5: a two-chunk state where the service succeeds on chunk 1 and
fails on chunk 2. -/
theorem claim5_witness :
    getFile (update_chunk_files (fun s => if s = "a" then some " A " else none)
      ⟨[], [("chunk_1.txt", "a"), ("chunk_2.txt", "b")]⟩).fs "chunk_2.txt" = some "b" ∧
    (∀ q c', getFile ⟨[], [("chunk_1.txt", "a"), ("chunk_2.txt", "b")]⟩ q = some c' →
      endswith ".txt" q = true →
      process_chunk (fun s => if s = "a" then some " A " else none) c' ≠ "" →
      getFile (update_chunk_files (fun s => if s = "a" then some " A " else none)
        ⟨[], [("chunk_1.txt", "a"), ("chunk_2.txt", "b")]⟩).fs q =
        some (process_chunk (fun s => if s = "a" then some " A " else none) c')) ∧
    pipelineAfterSplit (fun s => if s = "a" then some " A " else none)
      ⟨[], [("chunk_1.txt", "a"), ("chunk_2.txt", "b")]⟩ "b.epub" "auth" =
      (combine_chunks (update_chunk_files (fun s => if s = "a" then some " A " else none)
        ⟨[], [("chunk_1.txt", "a"), ("chunk_2.txt", "b")]⟩).fs,
       create_epub (combine_chunks (update_chunk_files
        (fun s => if s = "a" then some " A " else none)
        ⟨[], [("chunk_1.txt", "a"), ("chunk_2.txt", "b")]⟩).fs) "b.epub" "auth") :=
  claim5_service_failure (fun s => if s = "a" then some " A " else none)
    ⟨[], [("chunk_1.txt", "a"), ("chunk_2.txt", "b")]⟩ "chunk_2.txt" "b" "b.epub" "auth"
    (by decide) (by decide) (by decide) (by decide)

/-- Claim C6: the Combiner's output equals the stripped concatenation of the
current `.txt` chunk contents (sorted name order) joined by exactly one blank
line between each pair, for every on-disk state — failed (unedited) chunks
participate exactly like edited ones, and `combine_chunks` is a pure function
of the state. -/
theorem claim6_combiner (fs : FS) :
    combine_chunks fs = pyStrip (joinBlank (txtContents fs)) :=
  combine_chunks_eq_spec fs

/-- Claim C7: the Packager wraps exactly the blank-line-delimited segments that
are non-empty after trimming, in order; `"Hello world.\n\nSecond paragraph."`
yields exactly two paragraph elements, empty combined text yields zero
paragraph elements and the document is still produced. -/
theorem claim7_packager :
    (∀ (content filename author : String),
      (create_epub content filename author).chapterHtml =
        "<html><body>" ++
          String.join ((specSegments content).map (fun p => "<p>" ++ p ++ "</p>")) ++
          "</body></html>") ∧
    countPElems (create_epub "Hello world.\n\nSecond paragraph." "book.epub" "a").chapterHtml
      = 2 ∧
    specSegments "Hello world.\n\nSecond paragraph." =
      ["Hello world.", "Second paragraph."] ∧
    countPElems (create_epub "" "book.epub" "a").chapterHtml = 0 ∧
    create_epub "" "book.epub" "a" =
      { identifier := "id123456", title := "book", language := "en", author := "a",
        chapterTitle := "Chapter 1", chapterFile := "chap_01.xhtml",
        chapterHtml := "<html><body></body></html>",
        toc := [("chap_01.xhtml", "Chapter 1")], spine := ["nav", "Chapter 1"] } := by
  refine ⟨?_, by decide, by decide, by decide, by decide⟩
  intro content filename author
  rfl

/-- Claim C8: a second chunker run over the same input, directory and
parameters succeeds although the output directory already exists, and leaves
every file with content identical to the first run's result (the codec is a
pair of fixed functions, hence deterministic). -/
theorem claim8_idempotent (encode : String → List Nat) (decode : List Nat → String)
    (text dir : String) (cs ov : Int) (fs fs1 : FS)
    (h1 : split_text encode decode text dir cs ov fs = .ok fs1) :
    dir ∈ fs1.dirs ∧
    ∃ fs2, split_text encode decode text dir cs ov fs1 = .ok fs2 ∧
      ∀ p, getFile fs2 p = getFile fs1 p := by
  have hnz : ¬ cs - ov = 0 := by
    intro hz
    unfold split_text splitChunks at h1
    rw [if_pos hz] at h1
    exact Except.noConfusion h1
  obtain ⟨fsa, hmk, hfiles, hdir, heq⟩ := split_text_ok encode decode text dir cs ov fs hnz
  rw [heq] at h1
  have hfs1 : fs1 = writeAll ((chunksOf (encode text) cs ov).enum.map
      (fun ick => (chunkName (ick.fst + 1), decode ick.snd))) fsa :=
    (Except.ok.inj h1).symm
  have hdir1 : dir ∈ fs1.dirs := by
    rw [hfs1, dirs_writeAll]
    exact hdir
  refine ⟨hdir1, ?_⟩
  obtain ⟨fsb, hmk2, hfiles2, hdir2, heq2⟩ := split_text_ok encode decode text dir cs ov fs1 hnz
  have hmk2' : makedirs fs1 dir true = .ok fs1 := makedirs_mem_ok fs1 dir hdir1
  have hfsb : fsb = fs1 := by
    rw [hmk2'] at hmk2
    exact (Except.ok.inj hmk2).symm
  refine ⟨_, heq2, ?_⟩
  intro p
  rw [hfsb, hfs1]
  exact getFile_writeAll_writeAll _ fsa p

/-- Witness for C8 at a concrete codec, input and filesystem. -/
theorem claim8_witness :
    "out" ∈ (FS.mk ["out"]
      [("chunk_1.txt", "x"), ("chunk_2.txt", "x"), ("chunk_3.txt", "x")]).dirs ∧
    ∃ fs2, split_text (fun _ => [0, 1, 2]) (fun _ => "x") "t" "out" 2 1
        ⟨["out"], [("chunk_1.txt", "x"), ("chunk_2.txt", "x"), ("chunk_3.txt", "x")]⟩ =
        .ok fs2 ∧
      ∀ p, getFile fs2 p =
        getFile ⟨["out"], [("chunk_1.txt", "x"), ("chunk_2.txt", "x"), ("chunk_3.txt", "x")]⟩ p :=
  claim8_idempotent (fun _ => [0, 1, 2]) (fun _ => "x") "t" "out" 2 1 ⟨[], []⟩
    ⟨["out"], [("chunk_1.txt", "x"), ("chunk_2.txt", "x"), ("chunk_3.txt", "x")]⟩
    (by rfl)

/-- Claim C9: a file whose name does not end in `.txt` is never touched by the
Chunk Processor (not overwritten and never sent to the service) and its content
is irrelevant to the Combiner's output. -/
theorem claim9_non_txt (svc : String → Option String) (fs : FS) (p : String)
    (hnd : (listdir fs).Nodup) (hmem : p ∈ listdir fs)
    (htxt : ¬ endswith ".txt" p = true) :
    getFile (update_chunk_files svc fs).fs p = getFile fs p ∧
    ¬ p ∈ (update_chunk_files svc fs).sent ∧
    (∀ c', combine_chunks (setFile fs p c') = combine_chunks fs) := by
  refine ⟨?_, ?_, fun c' => combine_setFile_non_txt fs p c' hmem htxt⟩
  · rw [update_chunk_files_getFile svc fs hnd p]
    rw [if_neg (fun hc => htxt hc.2.1)]
  · rw [update_chunk_files_sent]
    intro hmem2
    exact htxt (List.mem_filter.mp hmem2).2

/-- Witness for C9: a state holding a `.txt` chunk and a `note.md` file. -/
theorem claim9_witness :
    getFile (update_chunk_files (fun _ => some "E")
      ⟨[], [("chunk_1.txt", "a"), ("note.md", "z")]⟩).fs "note.md" =
      getFile ⟨[], [("chunk_1.txt", "a"), ("note.md", "z")]⟩ "note.md" ∧
    ¬ "note.md" ∈ (update_chunk_files (fun _ => some "E")
      ⟨[], [("chunk_1.txt", "a"), ("note.md", "z")]⟩).sent ∧
    (∀ c', combine_chunks (setFile ⟨[], [("chunk_1.txt", "a"), ("note.md", "z")]⟩
        "note.md" c') =
      combine_chunks ⟨[], [("chunk_1.txt", "a"), ("note.md", "z")]⟩) :=
  claim9_non_txt (fun _ => some "E") ⟨[], [("chunk_1.txt", "a"), ("note.md", "z")]⟩
    "note.md" (by decide) (by decide) (by decide)

/-- Claim C10: a service payload consisting only of whitespace is treated
exactly like a failure: the processed result strips to the empty string, the
chunk file keeps its pre-edit content, and every other chunk with a successful
call is still processed. -/
theorem claim10_whitespace_payload (svc : String → Option String) (fs : FS)
    (p c w : String) (hnd : (listdir fs).Nodup) (hp : getFile fs p = some c)
    (htxt : endswith ".txt" p = true) (hsvc : svc c = some w)
    (hw : w.data.all isPySpace = true) :
    process_chunk svc c = "" ∧
    getFile (update_chunk_files svc fs).fs p = some c ∧
    (∀ q c', getFile fs q = some c' → endswith ".txt" q = true →
      process_chunk svc c' ≠ "" →
      getFile (update_chunk_files svc fs).fs q = some (process_chunk svc c')) := by
  have hproc : process_chunk svc c = "" := by
    unfold process_chunk
    rw [hsvc]
    exact pyStrip_all_space w hw
  refine ⟨hproc, ?_, ?_⟩
  · rw [update_chunk_files_getFile svc fs hnd p, hp]
    simp only [Option.getD_some]
    rw [if_neg (fun hc => hc.2.2 hproc)]
  · intro q c' hq hqt hqproc
    rw [update_chunk_files_getFile svc fs hnd q, hq]
    simp only [Option.getD_some]
    rw [if_pos ⟨mem_of_getFile hq, hqt, hqproc⟩]

/-- Witness for C10: the service answers chunk 1 with a whitespace-only payload. -/
theorem claim10_witness :
    process_chunk (fun s => if s = "a" then some "  \n " else none) "a" = "" ∧
    getFile (update_chunk_files (fun s => if s = "a" then some "  \n " else none)
      ⟨[], [("chunk_1.txt", "a"), ("chunk_2.txt", "b")]⟩).fs "chunk_1.txt" = some "a" ∧
    (∀ q c', getFile ⟨[], [("chunk_1.txt", "a"), ("chunk_2.txt", "b")]⟩ q = some c' →
      endswith ".txt" q = true →
      process_chunk (fun s => if s = "a" then some "  \n " else none) c' ≠ "" →
      getFile (update_chunk_files (fun s => if s = "a" then some "  \n " else none)
        ⟨[], [("chunk_1.txt", "a"), ("chunk_2.txt", "b")]⟩).fs q =
        some (process_chunk (fun s => if s = "a" then some "  \n " else none) c')) :=
  claim10_whitespace_payload (fun s => if s = "a" then some "  \n " else none)
    ⟨[], [("chunk_1.txt", "a"), ("chunk_2.txt", "b")]⟩ "chunk_1.txt" "a" "  \n "
    (by decide) (by decide) (by decide) (by decide) (by decide)

end PodcastTranscript
